import Mathlib

/-!
# Verification of the mbsspedia RAG indexing/retrieval core

A shallow embedding, in Lean 4, of the retrieval/indexing core of the
repository (`scripts/lib/rag-cache.mjs`, `scripts/lib/rag-chunking.mjs`,
`scripts/lib/rag-retrieval.mjs`, `scripts/lib/rag-embed.mjs`, and the
indexing/query commands `scripts/index-rag-cache.mjs` and
`scripts/generate-notes.mjs`), together with theorems settling the spec
claims about it.

Modelling conventions:
* JavaScript strings are modelled as `List Char` where character-level
  slicing matters (the chunker), and as `String` elsewhere.
* JavaScript numbers are modelled as `Nat` where they are counts/offsets
  and as `ℚ` where fractional values or `Math.floor` matter (scores,
  `mtimeMs`).
* Fallible code returns `Except`; a thrown JS error is an `Except.error`.
* External services (the `ai` package's `cosineSimilarity`) are passed in
  as function parameters returning `Except`.
-/

namespace Rag

/-! ## Chunker (`scripts/lib/rag-chunking.mjs`, `splitLongSection`)

The JS loop:

```js
export function splitLongSection(text, maxChars, overlapChars) {
  const normalized = String(text ?? "");
  const parts = [];
  let start = 0;
  while (start < normalized.length) {
    let end = Math.min(normalized.length, start + maxChars);
    if (end < normalized.length) {
      const paragraphBreak = normalized.lastIndexOf("\n\n", end);
      if (paragraphBreak > start + Math.floor(maxChars * 0.5)) {
        end = paragraphBreak + 2;
      }
    }
    parts.push(normalized.slice(start, end));
    if (end >= normalized.length) break;
    start = Math.max(start + 1, end - overlapChars);
  }
  return parts;
}
```

The loop always advances `start` by at least one, so it performs at most
`text.length` iterations; the Lean embedding makes that explicit by
recursing on a fuel counter that the top-level wrapper seeds with
`text.length`, which the progress argument shows is always enough.
-/

/-- `"\n\n"` occurs in `s` beginning at index `p`. -/
def nnAt (s : List Char) (p : Nat) : Bool :=
  s[p]? == some '\n' && s[p+1]? == some '\n'

/-- JS `s.lastIndexOf("\n\n", fromIdx)`: the largest index `q ≤ fromIdx`
at which `"\n\n"` begins, `none` when there is no such occurrence
(JS returns `-1`). -/
def lastNN (s : List Char) : Nat → Option Nat
  | 0 => if nnAt s 0 then some 0 else none
  | p + 1 => if nnAt s (p + 1) then some (p + 1) else lastNN s p

/-- The `end` of one window of the `splitLongSection` loop: the clamped
window `min length (start + maxChars)`, snapped to just past the last
paragraph break found at or before it when that break lies past the
window's halfway point. -/
def windowEnd (s : List Char) (maxChars start : Nat) : Nat :=
  let e := min s.length (start + maxChars)
  if e < s.length then
    match lastNN s e with
    | some pb => if start + maxChars / 2 < pb then pb + 2 else e
    | none => e
  else e

/-- Whether the paragraph-break snap fired for the window starting at
`start` (the `end = paragraphBreak + 2` branch was taken). -/
def windowSnap (s : List Char) (maxChars start : Nat) : Bool :=
  let e := min s.length (start + maxChars)
  if e < s.length then
    match lastNN s e with
    | some pb => decide (start + maxChars / 2 < pb)
    | none => false
  else false

/-- The `splitLongSection` loop body, recursing on `fuel`; one recursive
call per iteration of the JS `while` loop.  `fuel = s.length - start`
always suffices because each iteration increases `start`. -/
def splitLongSectionGo (s : List Char) (maxChars overlapChars : Nat) :
    Nat → Nat → List (List Char)
  | 0, _ => []
  | fuel + 1, start =>
    if start < s.length then
      let e := windowEnd s maxChars start
      let part := (s.drop start).take (e - start)
      if s.length ≤ e then [part]
      else part ::
        splitLongSectionGo s maxChars overlapChars fuel
          (max (start + 1) (e - overlapChars))
    else []

/-- `splitLongSection(text, maxChars, overlapChars)` from
`scripts/lib/rag-chunking.mjs`. -/
def splitLongSection (text : List Char) (maxChars : Nat := 2200)
    (overlapChars : Nat := 200) : List (List Char) :=
  splitLongSectionGo text maxChars overlapChars text.length 0

/-- The trace of the same loop: the `(start, end, snapped)` triple of each
iteration, in order.  Mirrors `splitLongSectionGo` verbatim; used to state
properties about the window offsets behind each returned slice. -/
def splitIntervalsGo (s : List Char) (maxChars overlapChars : Nat) :
    Nat → Nat → List (Nat × Nat × Bool)
  | 0, _ => []
  | fuel + 1, start =>
    if start < s.length then
      let e := windowEnd s maxChars start
      if s.length ≤ e then [(start, e, windowSnap s maxChars start)]
      else (start, e, windowSnap s maxChars start) ::
        splitIntervalsGo s maxChars overlapChars fuel
          (max (start + 1) (e - overlapChars))
    else []

/-- The interval trace of `splitLongSection`. -/
def splitIntervals (text : List Char) (maxChars : Nat := 2200)
    (overlapChars : Nat := 200) : List (Nat × Nat × Bool) :=
  splitIntervalsGo text maxChars overlapChars text.length 0

/-! ### Window bounds -/

theorem lastNN_le {s : List Char} {f p : Nat} (h : lastNN s f = some p) :
    p ≤ f := by
  induction f with
  | zero =>
    unfold lastNN at h
    split at h
    · simp_all
    · simp_all
  | succ n ih =>
    unfold lastNN at h
    split at h
    · simp_all
    · exact le_trans (ih h) (Nat.le_succ n)

theorem lastNN_nnAt {s : List Char} {f p : Nat} (h : lastNN s f = some p) :
    nnAt s p = true := by
  induction f with
  | zero =>
    unfold lastNN at h
    split at h
    · simp_all
    · simp_all
  | succ n ih =>
    unfold lastNN at h
    split at h
    · rename_i hb
      obtain rfl : n + 1 = p := by simpa using h
      exact hb
    · exact ih h

theorem nnAt_lt {s : List Char} {p : Nat} (h : nnAt s p = true) :
    p + 1 < s.length := by
  unfold nnAt at h
  have h2 : s[p+1]? = some '\n' := by
    rcases Bool.and_eq_true .. ▸ h with ⟨_, h2⟩
    simpa using h2
  exact (List.getElem?_eq_some.mp h2).1

theorem windowEnd_le (s : List Char) (maxChars start : Nat) :
    windowEnd s maxChars start ≤ s.length := by
  unfold windowEnd
  simp only []
  split
  · split
    · split
      · rename_i hpb _
        have h1 := nnAt_lt (lastNN_nnAt hpb)
        omega
      · exact min_le_left _ _
    · exact min_le_left _ _
  · exact min_le_left _ _

theorem windowEnd_le_add (s : List Char) (maxChars start : Nat) :
    windowEnd s maxChars start ≤ start + maxChars + 2 := by
  unfold windowEnd
  simp only []
  split
  · split
    · split
      · rename_i hlt hpb _
        have h1 := lastNN_le hpb
        have h2 : min s.length (start + maxChars) ≤ start + maxChars :=
          min_le_right _ _
        omega
      · exact le_trans (min_le_right _ _) (by omega)
    · exact le_trans (min_le_right _ _) (by omega)
  · exact le_trans (min_le_right _ _) (by omega)

theorem lt_windowEnd (s : List Char) (maxChars start : Nat)
    (hs : start < s.length) (hm : 1 ≤ maxChars) :
    start < windowEnd s maxChars start := by
  have hbase : start < min s.length (start + maxChars) := by omega
  unfold windowEnd
  simp only []
  split
  · split
    · split
      · rename_i hpb hgt
        omega
      · exact hbase
    · exact hbase
  · exact hbase

theorem noSnap_windowEnd (s : List Char) (maxChars start : Nat)
    (h : windowSnap s maxChars start = false) :
    windowEnd s maxChars start = min s.length (start + maxChars) := by
  unfold windowSnap at h
  unfold windowEnd
  simp only [] at h ⊢
  split
  · rename_i hlt
    rw [if_pos hlt] at h
    split
    · rename_i pb hpb
      rw [hpb] at h
      simp only [decide_eq_false_iff_not] at h
      rw [if_neg h]
    · rfl
  · rfl

/-! ### The loop trace: parts are the slices of the interval trace -/

theorem splitLongSectionGo_eq_map (s : List Char) (m o : Nat) :
    ∀ fuel start, splitLongSectionGo s m o fuel start =
      (splitIntervalsGo s m o fuel start).map
        (fun t => (s.drop t.1).take (t.2.1 - t.1)) := by
  intro fuel
  induction fuel with
  | zero => intro start; rfl
  | succ n ih =>
    intro start
    unfold splitLongSectionGo splitIntervalsGo
    by_cases h1 : start < s.length
    · rw [if_pos h1, if_pos h1]
      simp only []
      by_cases h2 : s.length ≤ windowEnd s m start
      · rw [if_pos h2, if_pos h2]
        rfl
      · rw [if_neg h2, if_neg h2]
        simp [ih]
    · rw [if_neg h1, if_neg h1]
      rfl

theorem splitLongSection_eq_map (s : List Char) (m o : Nat) :
    splitLongSection s m o =
      (splitIntervals s m o).map (fun t => (s.drop t.1).take (t.2.1 - t.1)) :=
  splitLongSectionGo_eq_map s m o s.length 0

/-- The head of any trace suffix begins at the `start` it was started at. -/
theorem splitIntervalsGo_head_start (s : List Char) (m o : Nat)
    (fuel start : Nat) :
    ∀ t ∈ (splitIntervalsGo s m o fuel start).head?, t.1 = start := by
  cases fuel with
  | zero => intro t ht; simp [splitIntervalsGo] at ht
  | succ n =>
    intro t ht
    unfold splitIntervalsGo at ht
    by_cases h1 : start < s.length
    · rw [if_pos h1] at ht
      simp only [] at ht
      by_cases h2 : s.length ≤ windowEnd s m start
      · rw [if_pos h2] at ht
        rw [List.head?_cons, Option.mem_some_iff] at ht
        rw [← ht]
      · rw [if_neg h2] at ht
        rw [List.head?_cons, Option.mem_some_iff] at ht
        rw [← ht]
    · rw [if_neg h1] at ht
      simp at ht

/-- Each loop iteration produces at most one part and advances `start`,
so the number of parts is bounded by the number of characters left. -/
theorem splitLongSectionGo_length_le (s : List Char) (m o : Nat) :
    ∀ fuel start,
      (splitLongSectionGo s m o fuel start).length ≤ s.length - start := by
  intro fuel
  induction fuel with
  | zero => intro start; simp [splitLongSectionGo]
  | succ n ih =>
    intro start
    unfold splitLongSectionGo
    by_cases h1 : start < s.length
    · rw [if_pos h1]
      simp only []
      by_cases h2 : s.length ≤ windowEnd s m start
      · rw [if_pos h2]
        simp only [List.length_cons, List.length_nil]
        omega
      · rw [if_neg h2]
        simp only [List.length_cons]
        have hnext := ih (max (start + 1) (windowEnd s m start - o))
        have hmax : start + 1 ≤ max (start + 1) (windowEnd s m start - o) :=
          Nat.le_max_left _ _
        omega
    · rw [if_neg h1]
      simp

/-- For every choice of `maxChars` and `overlapChars` (including
`overlapChars ≥ maxChars`), each non-final loop iteration advances the
start offset to exactly `max (start+1) (end - overlapChars)`, which is
strictly larger than the previous start. -/
theorem splitIntervalsGo_strict_mono (s : List Char) (m o : Nat) :
    ∀ fuel start,
      List.Chain'
        (fun p q : Nat × Nat × Bool =>
          q.1 = max (p.1 + 1) (p.2.1 - o) ∧ p.1 < q.1)
        (splitIntervalsGo s m o fuel start) := by
  intro fuel
  induction fuel with
  | zero => intro start; simp [splitIntervalsGo]
  | succ n ih =>
    intro start
    unfold splitIntervalsGo
    by_cases h1 : start < s.length
    · rw [if_pos h1]
      simp only []
      by_cases h2 : s.length ≤ windowEnd s m start
      · rw [if_pos h2]
        simp
      · rw [if_neg h2]
        rw [List.chain'_cons']
        refine ⟨?_, ih _⟩
        intro y hy
        have hhead := splitIntervalsGo_head_start s m o n
          (max (start + 1) (windowEnd s m start - o)) y hy
        have hmax : start + 1 ≤ max (start + 1) (windowEnd s m start - o) :=
          Nat.le_max_left _ _
        exact ⟨hhead, by omega⟩
    · rw [if_neg h1]
      simp

/-- The relation between two consecutive windows of the loop: the later
window starts at `max (start+1) (end-overlap)`, begins strictly after the
earlier one but no later than its end (so the half-open intervals overlap
or abut), the earlier window is not the final one (its end is below the
text length), and an un-snapped non-final window ends exactly
`maxChars` after its start. -/
def stepRel (maxChars overlapChars len : Nat) (p q : Nat × Nat × Bool) : Prop :=
  q.1 = max (p.1 + 1) (p.2.1 - overlapChars) ∧
  p.1 < q.1 ∧ q.1 ≤ p.2.1 ∧ p.2.1 < len ∧
  (p.2.2 = false → p.2.1 = p.1 + maxChars)

/-- Structure of the interval trace when `maxChars ≥ 1`, the start is in
range and the fuel is sufficient: the trace is nonempty, begins at
`start`, ends at the text length, every window is a genuine in-bounds
window of the loop, consecutive windows are linked by `stepRel`, and the
windows jointly cover every character position from `start` on. -/
theorem splitIntervalsGo_spec (s : List Char) (m o : Nat) (hm : 1 ≤ m) :
    ∀ fuel start, start < s.length → s.length ≤ fuel + start →
      splitIntervalsGo s m o fuel start ≠ [] ∧
      (splitIntervalsGo s m o fuel start).head? =
        some (start, windowEnd s m start, windowSnap s m start) ∧
      (splitIntervalsGo s m o fuel start).getLast?.map (fun t => t.2.1) =
        some s.length ∧
      (∀ t ∈ splitIntervalsGo s m o fuel start,
        start ≤ t.1 ∧ t.1 < t.2.1 ∧ t.2.1 ≤ s.length ∧
        t.2.1 = windowEnd s m t.1 ∧ t.2.2 = windowSnap s m t.1) ∧
      List.Chain' (stepRel m o s.length) (splitIntervalsGo s m o fuel start) ∧
      (∀ i, start ≤ i → i < s.length →
        ∃ t ∈ splitIntervalsGo s m o fuel start, t.1 ≤ i ∧ i < t.2.1) := by
  intro fuel
  induction fuel with
  | zero => intro start h1 h2; omega
  | succ n ih =>
    intro start h1 h2
    have he_le := windowEnd_le s m start
    have he_gt := lt_windowEnd s m start h1 hm
    unfold splitIntervalsGo
    rw [if_pos h1]
    simp only []
    by_cases hend : s.length ≤ windowEnd s m start
    · rw [if_pos hend]
      have heq : windowEnd s m start = s.length := le_antisymm he_le hend
      refine ⟨by simp, by simp, by simp [heq], ?_, by simp, ?_⟩
      · intro t ht
        rw [List.mem_singleton] at ht
        subst ht
        exact ⟨le_refl _, he_gt, he_le, rfl, rfl⟩
      · intro i hi1 hi2
        refine ⟨(start, windowEnd s m start, windowSnap s m start),
          List.mem_singleton_self _, hi1, ?_⟩
        show i < windowEnd s m start
        omega
    · rw [if_neg hend]
      push_neg at hend
      have hs'ub : max (start + 1) (windowEnd s m start - o) ≤
          windowEnd s m start := Nat.max_le.mpr ⟨he_gt, Nat.sub_le _ _⟩
      have hs'lb : start + 1 ≤ max (start + 1) (windowEnd s m start - o) :=
        Nat.le_max_left _ _
      have hs'lt : max (start + 1) (windowEnd s m start - o) < s.length :=
        lt_of_le_of_lt hs'ub hend
      have hfuel : s.length ≤ n + max (start + 1) (windowEnd s m start - o) := by
        omega
      obtain ⟨hA, hC, hD, hB, hE, hF⟩ := ih _ hs'lt hfuel
      refine ⟨by simp, by simp, ?_, ?_, ?_, ?_⟩
      · rw [List.getLast?_cons]
        obtain ⟨x, hx⟩ := Option.ne_none_iff_exists'.mp
          (by simpa using hA : (splitIntervalsGo s m o n
            (max (start + 1) (windowEnd s m start - o))).getLast? ≠ none)
        rw [hx]
        rw [hx] at hD
        simpa using hD
      · intro t ht
        rcases List.mem_cons.mp ht with rfl | ht'
        · exact ⟨le_refl _, he_gt, he_le, rfl, rfl⟩
        · obtain ⟨hb1, hb2, hb3, hb4, hb5⟩ := hB t ht'
          exact ⟨by omega, hb2, hb3, hb4, hb5⟩
      · rw [List.chain'_cons']
        refine ⟨?_, hE⟩
        intro y hy
        rw [hC, Option.mem_some_iff] at hy
        subst hy
        unfold stepRel
        dsimp only
        refine ⟨rfl, by omega, hs'ub, hend, ?_⟩
        intro hsnap
        have hws := noSnap_windowEnd s m start hsnap
        rcases Nat.le_total s.length (start + m) with hc | hc
        · rw [min_eq_left hc] at hws
          omega
        · rw [min_eq_right hc] at hws
          omega
      · intro i hi1 hi2
        by_cases hcov : i < windowEnd s m start
        · exact ⟨(start, windowEnd s m start, windowSnap s m start),
            List.mem_cons_self _ _, hi1, hcov⟩
        · push_neg at hcov
          obtain ⟨t, ht, hta, htb⟩ := hF i (by omega) hi2
          exact ⟨t, List.mem_cons_of_mem _ ht, hta, htb⟩


/-! ### Claim theorems about the chunker -/

/-- C7: `splitLongSection` terminates and returns a finite sequence for
every input text and every choice of `maxChars` and `overlapChars`,
including `overlapChars ≥ maxChars`: it is a total function (defined by
structural recursion on a fuel that the progress argument shows is
sufficient), the number of chunks is bounded by the text length, and
after each non-final window the start offset is advanced to
`max (start+1, end - overlapChars)`, which strictly increases it. -/
theorem claim_C7_termination (text : List Char) (maxChars overlapChars : Nat) :
    (splitLongSection text maxChars overlapChars).length ≤ text.length ∧
    List.Chain'
      (fun p q : Nat × Nat × Bool =>
        q.1 = max (p.1 + 1) (p.2.1 - overlapChars) ∧ p.1 < q.1)
      (splitIntervals text maxChars overlapChars) :=
  ⟨by simpa using
      splitLongSectionGo_length_le text maxChars overlapChars text.length 0,
   splitIntervalsGo_strict_mono text maxChars overlapChars text.length 0⟩

/-- C10: for `maxChars ≥ 1` the chunks of `splitLongSection` are the
contiguous slices of its interval trace, the windows start at strictly
increasing offsets and each next window starts no later than the previous
window's end (they overlap or abut), the first window starts at 0 and the
last ends at the text's length, and every character of the input appears
in at least one returned chunk (at offset `i - start` of the chunk whose
window contains position `i`): no text is lost between chunks. -/
theorem claim_C10_no_text_lost (text : List Char) (maxChars overlapChars : Nat)
    (hm : 1 ≤ maxChars) :
    splitLongSection text maxChars overlapChars =
      (splitIntervals text maxChars overlapChars).map
        (fun t => (text.drop t.1).take (t.2.1 - t.1)) ∧
    List.Chain' (fun p q : Nat × Nat × Bool => p.1 < q.1 ∧ q.1 ≤ p.2.1)
      (splitIntervals text maxChars overlapChars) ∧
    (∀ t ∈ splitIntervals text maxChars overlapChars,
      t.1 < t.2.1 ∧ t.2.1 ≤ text.length) ∧
    (text ≠ [] →
      (splitIntervals text maxChars overlapChars).head?.map
        (fun t => t.1) = some 0 ∧
      (splitIntervals text maxChars overlapChars).getLast?.map
        (fun t => t.2.1) = some text.length) ∧
    (∀ i, i < text.length →
      ∃ t ∈ splitIntervals text maxChars overlapChars,
        t.1 ≤ i ∧ i < t.2.1 ∧
        ((text.drop t.1).take (t.2.1 - t.1))[i - t.1]? = text[i]?) := by
  refine ⟨splitLongSection_eq_map text maxChars overlapChars, ?_⟩
  by_cases hnil : text = []
  · subst hnil
    refine ⟨by simp [splitIntervals, splitIntervalsGo], ?_, ?_, ?_⟩
    · intro t ht
      simp [splitIntervals, splitIntervalsGo] at ht
    · intro hne
      exact absurd rfl hne
    · intro i hi
      simp at hi
  · have hlen : 0 < text.length := List.length_pos.mpr hnil
    obtain ⟨hA, hC, hD, hB, hE, hF⟩ :=
      splitIntervalsGo_spec text maxChars overlapChars hm text.length 0
        hlen (by omega)
    refine ⟨?_, ?_, ?_, ?_⟩
    · exact hE.imp (fun a b hpq => ⟨hpq.2.1, hpq.2.2.1⟩)
    · intro t ht
      obtain ⟨_, h2, h3, _, _⟩ := hB t ht
      exact ⟨h2, h3⟩
    · intro _
      refine ⟨?_, hD⟩
      rw [show splitIntervals text maxChars overlapChars =
        splitIntervalsGo text maxChars overlapChars text.length 0 from rfl, hC]
      rfl
    · intro i hi
      obtain ⟨t, ht, hta, htb⟩ := hF i (Nat.zero_le i) hi
      refine ⟨t, ht, hta, htb, ?_⟩
      obtain ⟨_, _, hend, _, _⟩ := hB t ht
      rw [List.getElem?_take_of_lt (by omega : i - t.1 < t.2.1 - t.1)]
      have hdrop : (text.drop t.1)[i - t.1]? = text[t.1 + (i - t.1)]? := by
        simp
      rw [hdrop]
      congr 1
      omega

/-- A witness for C10 at a concrete input. -/
theorem claim_C10_no_text_lost_witness :
    1 ≤ 2 ∧
    (splitLongSection (['a', 'b', 'c'] : List Char) 2 1 =
      (splitIntervals (['a', 'b', 'c'] : List Char) 2 1).map
        (fun t => ((['a', 'b', 'c'] : List Char).drop t.1).take (t.2.1 - t.1)) ∧
    List.Chain' (fun p q : Nat × Nat × Bool => p.1 < q.1 ∧ q.1 ≤ p.2.1)
      (splitIntervals (['a', 'b', 'c'] : List Char) 2 1) ∧
    (∀ t ∈ splitIntervals (['a', 'b', 'c'] : List Char) 2 1,
      t.1 < t.2.1 ∧ t.2.1 ≤ (['a', 'b', 'c'] : List Char).length) ∧
    ((['a', 'b', 'c'] : List Char) ≠ [] →
      (splitIntervals (['a', 'b', 'c'] : List Char) 2 1).head?.map
        (fun t => t.1) = some 0 ∧
      (splitIntervals (['a', 'b', 'c'] : List Char) 2 1).getLast?.map
        (fun t => t.2.1) = some (['a', 'b', 'c'] : List Char).length) ∧
    (∀ i, i < (['a', 'b', 'c'] : List Char).length →
      ∃ t ∈ splitIntervals (['a', 'b', 'c'] : List Char) 2 1,
        t.1 ≤ i ∧ i < t.2.1 ∧
        (((['a', 'b', 'c'] : List Char).drop t.1).take
          (t.2.1 - t.1))[i - t.1]? = (['a', 'b', 'c'] : List Char)[i]?)) :=
  ⟨by decide, claim_C10_no_text_lost ['a', 'b', 'c'] 2 1 (by decide)⟩

/-- Ten `a`s, a paragraph break, then twelve `b`s: with `maxChars = 10`
the first window's clamped end lands exactly on the paragraph break, and
the snap moves the end two characters past `start + maxChars`. -/
def c6Text : List Char :=
  List.replicate 10 'a' ++ '\n' :: '\n' :: List.replicate 12 'b'

/-- C6 counterexample: with `maxChars = 10` and `overlapChars = 0`
(so `overlapChars < maxChars`), the first chunk of `c6Text` — which is
not the final chunk — has length 12 > `maxChars`: chunk lengths are NOT
bounded by `maxChars`, because the paragraph-break snap can extend a
window up to two characters past `start + maxChars`. -/
theorem claim_C6_counterexample :
    ¬ (∀ c ∈ (splitLongSection c6Text 10 0).dropLast, c.length ≤ 10) := by
  decide

/-- C6 as amended: for `overlapChars < maxChars`, every chunk has length
at most `maxChars + 2` (at most `maxChars` whenever the paragraph-break
snap did not fire for its window), and for every pair of consecutive
windows where no snap occurred on the earlier one, the next chunk's start
overlaps the tail of the previous chunk by at least
`min overlapChars (previous chunk length)` characters. -/
theorem claim_C6_amended (text : List Char) (maxChars overlapChars : Nat)
    (h : overlapChars < maxChars) :
    (∀ c ∈ splitLongSection text maxChars overlapChars,
      c.length ≤ maxChars + 2) ∧
    (∀ t ∈ splitIntervals text maxChars overlapChars,
      t.2.2 = false → t.2.1 - t.1 ≤ maxChars) ∧
    List.Chain'
      (fun p q : Nat × Nat × Bool => p.2.2 = false →
        min overlapChars (p.2.1 - p.1) ≤ p.2.1 - q.1)
      (splitIntervals text maxChars overlapChars) := by
  have hm : 1 ≤ maxChars := by omega
  by_cases hnil : text = []
  · subst hnil
    refine ⟨?_, ?_, ?_⟩
    · intro c hc
      simp [splitLongSection, splitLongSectionGo] at hc
    · intro t ht
      simp [splitIntervals, splitIntervalsGo] at ht
    · simp [splitIntervals, splitIntervalsGo]
  · have hlen : 0 < text.length := List.length_pos.mpr hnil
    obtain ⟨hA, hC, hD, hB, hE, hF⟩ :=
      splitIntervalsGo_spec text maxChars overlapChars hm text.length 0
        hlen (by omega)
    refine ⟨?_, ?_, ?_⟩
    · intro c hc
      rw [splitLongSection_eq_map] at hc
      obtain ⟨t, ht, rfl⟩ := List.mem_map.mp hc
      obtain ⟨_, _, _, hwe, _⟩ := hB t ht
      have hbound := windowEnd_le_add text maxChars t.1
      simp only [List.length_take, List.length_drop]
      omega
    · intro t ht hsnap
      obtain ⟨_, _, _, hwe, hws⟩ := hB t ht
      have hns := noSnap_windowEnd text maxChars t.1 (hws ▸ hsnap)
      have hmin : min text.length (t.1 + maxChars) ≤ t.1 + maxChars :=
        min_le_right _ _
      omega
    · refine hE.imp ?_
      intro p q hpq hsnap
      obtain ⟨hq, _, _, _, hfull⟩ := hpq
      have hend := hfull hsnap
      have hmax : max (p.1 + 1) (p.2.1 - overlapChars) =
          p.2.1 - overlapChars := by
        apply max_eq_right
        omega
      rw [hmax] at hq
      exact le_trans (min_le_left _ _) (by omega)

/-- A witness for the amended C6 at a concrete input. -/
theorem claim_C6_amended_witness :
    1 < 2 ∧
    ((∀ c ∈ splitLongSection (['a', 'b', 'c'] : List Char) 2 1,
      c.length ≤ 2 + 2) ∧
    (∀ t ∈ splitIntervals (['a', 'b', 'c'] : List Char) 2 1,
      t.2.2 = false → t.2.1 - t.1 ≤ 2) ∧
    List.Chain'
      (fun p q : Nat × Nat × Bool => p.2.2 = false →
        min 1 (p.2.1 - p.1) ≤ p.2.1 - q.1)
      (splitIntervals (['a', 'b', 'c'] : List Char) 2 1)) :=
  ⟨by decide, claim_C6_amended ['a', 'b', 'c'] 2 1 (by decide)⟩


/-! ## Fingerprint & manifest store (`scripts/lib/rag-cache.mjs`)

`CHUNKING_VERSION` is the constant `"v1"` from `rag-chunking.mjs` (the
current run's chunking version); `MANIFEST_VERSION` is `"v1"` from
`rag-cache.mjs`. -/

def CHUNKING_VERSION : String := "v1"

def MANIFEST_VERSION : String := "v1"

/-- The result of `fingerprintFile`: `{size, mtimeMs, sha256}` of the
live file (`absolutePath` is carried separately as the map key).
`mtimeMs` is a JS float (fractional milliseconds), modelled as `ℚ`. -/
structure Fingerprint where
  size : Nat
  mtimeMs : ℚ
  sha256 : String
deriving DecidableEq

/-- A manifest `sources` entry, as written by `buildManifestEntryBase` in
the indexing command (the fields the staleness checks consult). -/
structure ManifestEntry where
  type : String
  specialty : String
  size : Nat
  mtimeMs : ℚ
  sha256 : String
  modelId : String
  chunkingVersion : String
deriving DecidableEq

/-- `isFingerprintMatch(entry, fingerprint)` from `rag-cache.mjs`:
`false` when either argument is nullish, otherwise equality of `sha256`,
`size` and (numeric) `mtimeMs`. -/
def isFingerprintMatch (entry : Option ManifestEntry)
    (fingerprint : Option Fingerprint) : Bool :=
  match entry, fingerprint with
  | some e, some f =>
    (e.sha256 == f.sha256) && (e.size == f.size) && (e.mtimeMs == f.mtimeMs)
  | _, _ => false

/-- The `fresh` check of the per-document indexing loops in the indexing
command (`index-rag-cache.mjs` `main`), identical in shape for the pdf
and note loops:

```js
const fresh =
  !options.force && existing &&
  existing.type === "pdf" &&                // resp. "note"
  existing.specialty === options.specialty &&
  existing.modelId === options.embeddingModel &&
  existing.chunkingVersion === CHUNKING_VERSION &&
  isFingerprintMatch(existing, fingerprint) &&
  (await hasAllArtifactFiles(artifactFiles));
```

`artifactsOk` stands for `hasAllArtifactFiles(artifactFiles)`, where
`artifactFiles` is the type-specific list of expected artifact files and
the check reads each one. -/
def freshCheck (force : Bool) (existing : Option ManifestEntry)
    (expectedType specialty embeddingModel : String) (fingerprint : Fingerprint)
    (artifactsOk : Bool) : Bool :=
  !force &&
    match existing with
    | none => false
    | some e =>
      (e.type == expectedType) && (e.specialty == specialty) &&
      (e.modelId == embeddingModel) && (e.chunkingVersion == CHUNKING_VERSION) &&
      isFingerprintMatch (some e) (some fingerprint) && artifactsOk

/-! ### `readJsonIfExists` / `readManifest`

The result of attempting to read and `JSON.parse` a file is modelled by
`FileOutcome`: either the attempt threw (`failed code`, where `code` is
the thrown error's `code` property — `readFile` failures carry a Node
error code such as `"ENOENT"`, a `JSON.parse` `SyntaxError` has none) or
it produced a JSON value.  A parsed JSON value is either falsy (`null`,
`false`, `0`, `""`) or truthy; property access on a truthy value yields
the optional field values (absent/null fields are `none`, which is what
`??` tests). -/

inductive JsonDoc where
  | falsy
  | obj (manifestVersion createdAt updatedAt chunkingVersion
        embeddingModel : Option String)
        (sources : Option (List (String × ManifestEntry)))
deriving DecidableEq

inductive FileOutcome where
  | failed (code : Option String)
  | parsed (doc : JsonDoc)
deriving DecidableEq

/-- `readJsonIfExists(filePath, fallback)` from `rag-cache.mjs`: returns
the parsed JSON, or `fallback` when the thrown error's `code` is
`"ENOENT"` or `"EISDIR"`; any other error — including a `JSON.parse`
failure, whose `SyntaxError` has no `code` — is rethrown. -/
def readJsonIfExists (file : FileOutcome) (fallback : Option JsonDoc) :
    Except (Option String) (Option JsonDoc) :=
  match file with
  | .parsed d => .ok (some d)
  | .failed code =>
    if code == some "ENOENT" || code == some "EISDIR" then .ok fallback
    else .error code

/-- The manifest value `readManifest` returns (all six fields present). -/
structure Manifest where
  manifestVersion : String
  createdAt : String
  updatedAt : String
  chunkingVersion : String
  embeddingModel : String
  sources : List (String × ManifestEntry)
deriving DecidableEq

/-- The all-defaults manifest `readManifest` builds when the file is
absent (`new Date().toISOString()` is passed in as `now`). -/
def emptyManifest (now : String) : Manifest :=
  { manifestVersion := MANIFEST_VERSION
    createdAt := now
    updatedAt := now
    chunkingVersion := "unknown"
    embeddingModel := ""
    sources := [] }

/-- `readManifest(manifestPath)` from `rag-cache.mjs`: reads the file via
`readJsonIfExists(path, null)`; a falsy result gets the full defaults,
otherwise each of the six fields is filled with `??` defaults. -/
def readManifest (file : FileOutcome) (now : String) :
    Except (Option String) Manifest :=
  match readJsonIfExists file none with
  | .error e => .error e
  | .ok none => .ok (emptyManifest now)
  | .ok (some .falsy) => .ok (emptyManifest now)
  | .ok (some (.obj mv ca ua cv em src)) =>
    .ok { manifestVersion := mv.getD MANIFEST_VERSION
          createdAt := ca.getD now
          updatedAt := ua.getD now
          chunkingVersion := cv.getD "unknown"
          embeddingModel := em.getD ""
          sources := src.getD [] }

/-! ### Query-time readiness (`generate-notes.mjs`)

`listCacheReadinessIssues` walks the documents required by the run and
checks each one's manifest entry.  Its live-file information comes from
`stat()` only — `isFile`, `size`, and `mtimeMs` — and the sizes/mtimes
are compared with `Number(...)` coercion and `Math.floor` on the mtimes.
The `LiveFile` record also carries the content hash of the file on disk
so that theorems can speak about content changes, but `stat()` does not
expose it and `docIssue` never reads that field. -/

structure LiveFile where
  isFile : Bool
  size : Nat
  mtimeMs : ℚ
  sha256 : String
deriving DecidableEq

/-- The per-document body of the `listCacheReadinessIssues` loop in
`generate-notes.mjs` (lines 1544–1622): the issue reason pushed for one
required document, or `none` when the entry passes every check.
`manifestEmbeddingModel` is `manifest.embeddingModel`;
the expected chunking version is the imported `CHUNKING_VERSION`. -/
def docIssue (entry : Option ManifestEntry)
    (expectedType specialty manifestEmbeddingModel : String)
    (st : Except String LiveFile) : Option String :=
  match entry with
  | none => some "missing_manifest_entry"
  | some e =>
    if e.type ≠ expectedType then
      some ("type_mismatch_expected_" ++ expectedType)
    else if e.specialty ≠ specialty then
      some ("specialty_mismatch:" ++
        (if e.specialty = "" then "missing" else e.specialty) ++
        "!=" ++ specialty)
    else if e.modelId ≠ manifestEmbeddingModel then
      some "embedding_model_mismatch"
    else if e.chunkingVersion ≠ CHUNKING_VERSION then
      some "chunking_version_mismatch"
    else
      match st with
      | .error msg => some ("source_unreadable:" ++ msg)
      | .ok live =>
        if live.isFile = false then some "source_not_file"
        else if e.size ≠ live.size ∨ ⌊e.mtimeMs⌋ ≠ ⌊live.mtimeMs⌋ then
          some "source_changed_since_index"
        else none

/-- `listCacheReadinessIssues(options, manifest)`: the issues collected
over the required documents (each a path with its expected type), with
`sources` the manifest entry lookup and `statF` the filesystem's answer
to `stat(path)`. -/
def listCacheReadinessIssues (required : List (String × String))
    (sources : String → Option ManifestEntry)
    (specialty manifestEmbeddingModel : String)
    (statF : String → Except String LiveFile) : List (String × String) :=
  required.filterMap fun d =>
    (docIssue (sources d.1) d.2 specialty manifestEmbeddingModel
      (statF d.1)).map (fun r => (d.1, r))

/-- The gate at the top of `prepareIndexedContextSources`
(`generate-notes.mjs` lines 1631–1650): throw the stale-index error when
there are issues and `--allow-stale-index` was not given; otherwise
proceed, returning whether the stale-index warning was printed. -/
def prepareGate (required : List (String × String))
    (sources : String → Option ManifestEntry)
    (specialty manifestEmbeddingModel : String)
    (statF : String → Except String LiveFile)
    (allowStaleIndex : Bool) : Except String Bool :=
  let issues :=
    listCacheReadinessIssues required sources specialty
      manifestEmbeddingModel statF
  if 0 < issues.length ∧ allowStaleIndex = false then
    .error "RAG index is missing or stale."
  else
    .ok (decide (0 < issues.length) && allowStaleIndex)


/-! ### Claim theorems about the fingerprint & manifest store -/

/-- C4: a document is skipped as fresh by the indexing loops iff
force-rebuild was off, a manifest entry exists, its type, specialty,
embedding model id and chunking version equal the current run's
configuration, its fingerprint (sha256, size, mtimeMs) matches the live
file exactly, and every expected artifact file is present and readable;
any one mismatch falsifies `fresh` and the document is re-indexed. -/
theorem claim_C4_fresh_iff (force : Bool) (existing : Option ManifestEntry)
    (expectedType specialty embeddingModel : String) (fingerprint : Fingerprint)
    (artifactsOk : Bool) :
    freshCheck force existing expectedType specialty embeddingModel
        fingerprint artifactsOk = true ↔
      (force = false ∧ ∃ e, existing = some e ∧ e.type = expectedType ∧
        e.specialty = specialty ∧ e.modelId = embeddingModel ∧
        e.chunkingVersion = CHUNKING_VERSION ∧
        e.sha256 = fingerprint.sha256 ∧ e.size = fingerprint.size ∧
        e.mtimeMs = fingerprint.mtimeMs ∧ artifactsOk = true) := by
  cases existing with
  | none => simp [freshCheck]
  | some e =>
    simp [freshCheck, isFingerprintMatch, Bool.and_eq_true, and_assoc,
      Bool.not_eq_true']

/-- C5 counterexample: a manifest file that exists but cannot be parsed
as JSON (`JSON.parse` throws a `SyntaxError`, which has no `code`
property) makes `readManifest` rethrow rather than return the defaults:
the claim that it returns a defaulted manifest whenever the file is
"absent or cannot be read as structured data" is false. -/
theorem claim_C5_counterexample :
    readManifest (FileOutcome.failed none) "2026-02-03T00:00:00.000Z" =
      Except.error none ∧
    readManifest (FileOutcome.failed none) "2026-02-03T00:00:00.000Z" ≠
      Except.ok (emptyManifest "2026-02-03T00:00:00.000Z") :=
  ⟨rfl, fun h => nomatch h⟩

/-- C5 as amended: `readManifest` returns the all-defaults manifest when
the file is absent (`ENOENT`), is a directory (`EISDIR`), or parses to a
JSON-falsy value — so it never throws for a missing file; a `JSON.parse`
failure or a read error with any other code propagates as a thrown
error; and whenever it returns a manifest, all six fields are populated,
each absent field filled with its default. -/
theorem claim_C5_amended (now : String) :
    readManifest (.failed (some "ENOENT")) now = .ok (emptyManifest now) ∧
    readManifest (.failed (some "EISDIR")) now = .ok (emptyManifest now) ∧
    readManifest (.parsed .falsy) now = .ok (emptyManifest now) ∧
    readManifest (.failed none) now = .error none ∧
    (∀ code : Option String, code ≠ some "ENOENT" → code ≠ some "EISDIR" →
      readManifest (.failed code) now = .error code) ∧
    (∀ mv ca ua cv em src,
      readManifest (.parsed (.obj mv ca ua cv em src)) now =
        .ok { manifestVersion := mv.getD MANIFEST_VERSION
              createdAt := ca.getD now
              updatedAt := ua.getD now
              chunkingVersion := cv.getD "unknown"
              embeddingModel := em.getD ""
              sources := src.getD [] }) := by
  refine ⟨rfl, rfl, rfl, rfl, ?_, fun mv ca ua cv em src => rfl⟩
  intro code h1 h2
  simp [readManifest, readJsonIfExists, h1, h2]

/-- A witness for the amended C5 at concrete inputs. -/
theorem claim_C5_amended_witness :
    readManifest (.failed (some "ENOENT")) "T" = .ok (emptyManifest "T") ∧
    readManifest (.failed (some "EACCES")) "T" = .error (some "EACCES") :=
  ⟨(claim_C5_amended "T").1,
   (claim_C5_amended "T").2.2.2.2.1 (some "EACCES") (by decide) (by decide)⟩

/-- A manifest entry whose recorded hash is `"hash-old"` but whose
size/mtime and configuration fields all match the current run. -/
def c1Entry : ManifestEntry :=
  { type := "pdf", specialty := "surgery", size := 10, mtimeMs := 5,
    sha256 := "hash-old", modelId := "model-a", chunkingVersion := "v1" }

/-- The live file after an edit that changed its content (hash now
`"hash-new"`) while preserving its byte size and modification time. -/
def c1Live : LiveFile :=
  { isFile := true, size := 10, mtimeMs := 5, sha256 := "hash-new" }

/-- C1 counterexample: a live file whose content hash differs from its
manifest entry's hash while size and mtime are unchanged produces no
readiness issue — `listCacheReadinessIssues` compares only `stat()`
size/mtime, never the content hash — so `prepareIndexedContextSources`
neither throws the stale-index error nor warns (its gate returns
"proceed, no warning" even without `--allow-stale-index`). -/
theorem claim_C1_counterexample :
    c1Live.sha256 ≠ c1Entry.sha256 ∧
    listCacheReadinessIssues [("/slides/doc.pdf", "pdf")]
      (fun _ => some c1Entry) "surgery" "model-a" (fun _ => .ok c1Live) = [] ∧
    prepareGate [("/slides/doc.pdf", "pdf")] (fun _ => some c1Entry)
      "surgery" "model-a" (fun _ => .ok c1Live) false = .ok false :=
  ⟨by decide, by rfl, by rfl⟩

/-- C1 as amended: at query time a required document is flagged exactly
when its manifest entry is missing, or its type, specialty, model id or
chunking version mismatch the run, or the live file cannot be statted,
is not a regular file, or differs in size or floored mtime — the content
hash is never consulted (replacing the live file's hash never changes
the verdict); and `prepareIndexedContextSources` throws the stale-index
error iff there is at least one issue and `--allow-stale-index` was not
given, while with the flag it proceeds and warns iff issues exist. -/
theorem claim_C1_amended :
    (∀ (expectedType specialty manifestEmbeddingModel : String)
       (st : Except String LiveFile),
      docIssue none expectedType specialty manifestEmbeddingModel st =
        some "missing_manifest_entry") ∧
    (∀ (e : ManifestEntry)
       (expectedType specialty manifestEmbeddingModel : String)
       (st : Except String LiveFile),
      docIssue (some e) expectedType specialty manifestEmbeddingModel st =
          none ↔
        (e.type = expectedType ∧ e.specialty = specialty ∧
         e.modelId = manifestEmbeddingModel ∧
         e.chunkingVersion = CHUNKING_VERSION ∧
         ∃ live, st = .ok live ∧ live.isFile = true ∧
           e.size = live.size ∧ ⌊e.mtimeMs⌋ = ⌊live.mtimeMs⌋)) ∧
    (∀ (e : ManifestEntry)
       (expectedType specialty manifestEmbeddingModel : String)
       (live : LiveFile) (h : String),
      docIssue (some e) expectedType specialty manifestEmbeddingModel
          (.ok { live with sha256 := h }) =
        docIssue (some e) expectedType specialty manifestEmbeddingModel
          (.ok live)) ∧
    (∀ required sources specialty manifestEmbeddingModel statF
       (allowStaleIndex : Bool),
      (prepareGate required sources specialty manifestEmbeddingModel statF
          allowStaleIndex = .error "RAG index is missing or stale." ↔
        listCacheReadinessIssues required sources specialty
          manifestEmbeddingModel statF ≠ [] ∧ allowStaleIndex = false) ∧
      (allowStaleIndex = true →
        prepareGate required sources specialty manifestEmbeddingModel statF
            allowStaleIndex =
          .ok (decide (0 < (listCacheReadinessIssues required sources
            specialty manifestEmbeddingModel statF).length)))) := by
  refine ⟨fun _ _ _ _ => rfl, ?_, ?_, ?_⟩
  · intro e expectedType specialty manifestEmbeddingModel st
    cases st with
    | error msg =>
      simp only [docIssue]
      split_ifs <;> simp_all
    | ok live =>
      simp only [docIssue]
      split_ifs <;> simp_all
      tauto
  · intro e expectedType specialty manifestEmbeddingModel live h
    cases live
    rfl
  · intro required sources specialty manifestEmbeddingModel statF stale
    constructor
    · simp only [prepareGate]
      split_ifs with hc
      · simp only [Except.error.injEq, true_iff]
        exact ⟨List.length_pos.mp hc.1, hc.2⟩
      · simp only [reduceCtorEq, false_iff]
        intro ⟨hne, hfalse⟩
        exact hc ⟨List.length_pos.mpr hne, hfalse⟩
    · intro hstale
      simp only [prepareGate]
      split_ifs with hc
      · rw [hstale] at hc
        simp at hc
      · simp [hstale]



/-! ## The indexing run (`index-rag-cache.mjs`, `main`)

`main` iterates the slide PDFs and then the senior notes with plain
`for` loops and **no try/catch around the per-document work**
(`fingerprintFile`, the fresh check, `indexPdf` / `indexNote`); the only
handler is the top-level `main().catch(...)`, which prints the error and
sets `process.exitCode = 1`.  The summary report counts only
`indexed`/`skipped`/`chunks` per kind.

Each document's processing is abstracted as a `DocOutcome`: it was found
fresh and skipped, it was indexed producing some chunks, or the work
threw (extraction, chunking, or an embedding call whose `maxRetries: 2`
budget was exhausted — the `ai` SDK rethrows after the retries). -/

inductive DocOutcome where
  | fresh
  | indexed (chunks : Nat)
  | failure (msg : String)
deriving DecidableEq

/-- Whether the document's processing threw. -/
def DocOutcome.isFailure : DocOutcome → Bool
  | .failure _ => true
  | _ => false

/-- Whether the document was indexed (used to count `report.indexed`). -/
def DocOutcome.isIndexed : DocOutcome → Bool
  | .indexed _ => true
  | _ => false

/-- Whether the document was skipped fresh (counts `report.skipped`). -/
def DocOutcome.isFresh : DocOutcome → Bool
  | .fresh => true
  | _ => false

/-- The chunks an indexed document contributed to `report.chunks`. -/
def DocOutcome.chunksOf : DocOutcome → Option Nat
  | .indexed n => some n
  | _ => none

/-- The per-kind summary counters of `main`'s `report`. -/
structure IndexReport where
  indexed : Nat
  skipped : Nat
  chunks : Nat
deriving DecidableEq

/-- The per-document loop of `main`: a fresh document bumps `skipped`,
an indexed one bumps `indexed`/`chunks`, and a throw propagates out of
the (handler-free) loop immediately, abandoning the remaining
documents. -/
def runIndexLoop : List DocOutcome → IndexReport → Except String IndexReport
  | [], rep => .ok rep
  | .fresh :: rest, rep =>
    runIndexLoop rest { rep with skipped := rep.skipped + 1 }
  | .indexed n :: rest, rep =>
    runIndexLoop rest
      { rep with indexed := rep.indexed + 1, chunks := rep.chunks + n }
  | .failure msg :: _, _ => .error msg

/-- `main().catch(...)`: an error escaping `main` is printed and the
process exit code is set to 1; otherwise the summary is printed and the
exit code stays 0. -/
def mainExitCode (docs : List DocOutcome) : Nat :=
  match runIndexLoop docs ⟨0, 0, 0⟩ with
  | .error _ => 1
  | .ok _ => 0

/-- The first throw ends the loop with that error, whatever documents
follow. -/
theorem runIndexLoop_append_failure (pre : List DocOutcome)
    (post : List DocOutcome) (msg : String) :
    ∀ rep : IndexReport, (∀ d ∈ pre, d.isFailure = false) →
      runIndexLoop (pre ++ DocOutcome.failure msg :: post) rep =
        .error msg := by
  induction pre with
  | nil => intro rep _; rfl
  | cons d rest ih =>
    intro rep h
    have hd := h d (List.mem_cons_self d rest)
    have hrest : ∀ x ∈ rest, x.isFailure = false :=
      fun x hx => h x (List.mem_cons_of_mem d hx)
    cases d with
    | fresh => exact ih _ hrest
    | indexed n => exact ih _ hrest
    | failure m => simp [DocOutcome.isFailure] at hd

/-- A failure-free run completes and its summary counts every document
as indexed or skipped, with the chunk totals accumulated. -/
theorem runIndexLoop_all_ok (docs : List DocOutcome) :
    ∀ rep : IndexReport, (∀ d ∈ docs, d.isFailure = false) →
      runIndexLoop docs rep = .ok
        { indexed := rep.indexed + (docs.filter DocOutcome.isIndexed).length
          skipped := rep.skipped + (docs.filter DocOutcome.isFresh).length
          chunks := rep.chunks + (docs.filterMap DocOutcome.chunksOf).sum } := by
  induction docs with
  | nil => intro rep _; simp [runIndexLoop]
  | cons d rest ih =>
    intro rep hall
    have hd := hall d (List.mem_cons_self d rest)
    have hrest : ∀ x ∈ rest, x.isFailure = false :=
      fun x hx => hall x (List.mem_cons_of_mem d hx)
    cases d with
    | fresh =>
      rw [show runIndexLoop (DocOutcome.fresh :: rest) rep =
        runIndexLoop rest { rep with skipped := rep.skipped + 1 } from rfl,
        ih _ hrest]
      simp only [List.filter_cons, List.filterMap_cons]
      simp [DocOutcome.isIndexed, DocOutcome.isFresh, DocOutcome.chunksOf]
      omega
    | indexed n =>
      have hstep : runIndexLoop (DocOutcome.indexed n :: rest) rep =
          runIndexLoop rest
            { rep with indexed := rep.indexed + 1, chunks := rep.chunks + n } :=
        rfl
      rw [hstep, ih _ hrest]
      simp only [List.filter_cons, List.filterMap_cons]
      simp [DocOutcome.isIndexed, DocOutcome.isFresh, DocOutcome.chunksOf]
      omega
    | failure m => simp [DocOutcome.isFailure] at hd

/-! ### Claim theorems about the indexing run -/

/-- C2 counterexample: a failure while indexing the first document
aborts the whole run — the error propagates to `main().catch`, the
remaining document is never processed (the run's result is the bare
error, its counts are lost), and the process exit code is 1.  The claim
that per-document failures are caught, counted, and never abort the run
is false. -/
theorem claim_C2_counterexample :
    runIndexLoop [DocOutcome.failure "embedding failed",
      DocOutcome.indexed 3] ⟨0, 0, 0⟩ = .error "embedding failed" ∧
    mainExitCode [DocOutcome.failure "embedding failed",
      DocOutcome.indexed 3] = 1 :=
  ⟨rfl, rfl⟩

/-- C2 as amended: the indexing loops have no per-document handler, so
the first document whose processing throws ends the run with that error
(documents after it are never reached, and no failure count is
reported); only a run in which no document fails completes, and its
summary counts every document as indexed or skipped. -/
theorem claim_C2_amended (pre post : List DocOutcome) (msg : String)
    (rep : IndexReport) (h : ∀ d ∈ pre, d.isFailure = false) :
    runIndexLoop (pre ++ DocOutcome.failure msg :: post) rep = .error msg ∧
    (∀ (docs : List DocOutcome) (r : IndexReport),
      (∀ d ∈ docs, d.isFailure = false) →
      runIndexLoop docs r = .ok
        { indexed := r.indexed + (docs.filter DocOutcome.isIndexed).length
          skipped := r.skipped + (docs.filter DocOutcome.isFresh).length
          chunks := r.chunks + (docs.filterMap DocOutcome.chunksOf).sum }) :=
  ⟨runIndexLoop_append_failure pre post msg rep h,
   fun docs r hall => runIndexLoop_all_ok docs r hall⟩

/-- A witness for the amended C2 at a concrete input. -/
theorem claim_C2_amended_witness :
    (∀ d ∈ [DocOutcome.fresh, DocOutcome.indexed 4], d.isFailure = false) ∧
    (runIndexLoop ([DocOutcome.fresh, DocOutcome.indexed 4] ++
        DocOutcome.failure "boom" :: [DocOutcome.indexed 9]) ⟨0, 0, 0⟩ =
      .error "boom" ∧
    (∀ (docs : List DocOutcome) (r : IndexReport),
      (∀ d ∈ docs, d.isFailure = false) →
      runIndexLoop docs r = .ok
        { indexed := r.indexed + (docs.filter DocOutcome.isIndexed).length
          skipped := r.skipped + (docs.filter DocOutcome.isFresh).length
          chunks := r.chunks + (docs.filterMap DocOutcome.chunksOf).sum })) :=
  ⟨by decide,
   claim_C2_amended [DocOutcome.fresh, DocOutcome.indexed 4]
     [DocOutcome.indexed 9] "boom" ⟨0, 0, 0⟩ (by decide)⟩


/-! ## Lexical support (`scripts/lib/rag-chunking.mjs`)

`toTokens`, `buildTopicTerms`, `lexicalScore` and `normalizeMinMax`,
modelled over `String`/`ℚ`.  JS `Set` iteration order is insertion
order, so the term set is a duplicate-free list grown by appending. -/

/-- JS `String.prototype.toLowerCase`, per character. -/
def jsToLower (s : String) : String := String.map Char.toLower s

/-- JS `\s` for the characters this data contains. -/
def isWsChar (c : Char) : Bool :=
  c == ' ' || c == '\t' || c == '\n' || c == '\r'

/-- A character that survives the `[^a-z0-9\s]` → `" "` replacement
(applied after lowercasing). -/
def keptChar (c : Char) : Bool :=
  (('a' ≤ c && c ≤ 'z') || ('0' ≤ c && c ≤ '9')) || isWsChar c

/-- Keep the first occurrence of each element (JS `new Set(...)` keeps
insertion order). -/
def dedupFirst : List String → List String → List String
  | [], _ => []
  | x :: xs, seen =>
    if x ∈ seen then dedupFirst xs seen
    else x :: dedupFirst xs (x :: seen)

/-- `toTokens(value)`: lowercase, strip non-alphanumerics to whitespace,
split on whitespace, keep unique tokens of length ≥ 3. -/
def toTokens (value : String) : List String :=
  let lowered := value.toList.map Char.toLower
  let cleaned := lowered.map (fun c => if keptChar c then c else ' ')
  let words := (cleaned.splitOnP isWsChar).map (fun w => String.mk w)
  dedupFirst (words.filter (fun w => 3 ≤ w.length)) []

/-- The fixed clinical synonym table of `buildTopicTerms`. -/
def synonymMap : List (String × List String) :=
  [("pancreatitis", ["pancreas", "pancreatic", "hbp", "hepatobiliary"]),
   ("pancreas", ["pancreatic", "pancreatitis"]),
   ("intestinal", ["bowel", "gut", "ileus", "obstruction"]),
   ("bowel", ["intestinal", "colorectal", "gut"]),
   ("cancer", ["carcinoma", "malignancy", "tumour", "tumor", "oncology"]),
   ("carcinoma", ["cancer", "malignancy"]),
   ("hernia", ["inguinal", "femoral", "umbilical", "incisional"]),
   ("thyroid", ["goitre", "goiter", "endocrine"]),
   ("cholangitis", ["biliary", "gallstone", "cholecystitis"]),
   ("cholangio", ["biliary", "cholangitis"]),
   ("liver", ["hepatic", "hbp", "hepatobiliary"]),
   ("breast", ["mammary"]),
   ("trauma", ["injury", "shock", "resuscitation"]),
   ("stroke", ["cerebrovascular", "intracranial"]),
   ("appendicitis", ["appendix", "rlq", "acute abdomen"]),
   ("jaundice", ["biliary", "hepatobiliary", "cholestasis"]),
   ("obstruction", ["occlusion", "ileus"]),
   ("bleeding", ["haemorrhage", "hemorrhage", "ugib", "lgib"])]

/-- `synonymMap[token] ?? []`. -/
def lookupSyn (token : String) : List String :=
  match synonymMap.find? (fun kv => kv.1 == token) with
  | some kv => kv.2
  | none => []

/-- `terms.add(x)` on a JS `Set` held as an insertion-ordered list. -/
def insertTerm (l : List String) (x : String) : List String :=
  if x ∈ l then l else l ++ [x]

/-- Add several terms in order. -/
def insertTerms (l : List String) (xs : List String) : List String :=
  xs.foldl insertTerm l

/-- `buildTopicTerms(topic)`: the token set of the topic, expanded once
per original token through the synonym table and a naive trailing-`s`
singularisation, then expanded through every synonym key contained in
the lowercased topic text. -/
def buildTopicTerms (topic : String) : List String :=
  let base := toTokens topic
  let afterTokens := base.foldl (fun acc token =>
    let acc1 := insertTerms acc (lookupSyn token)
    if token.endsWith "s" && 4 < token.length then
      insertTerm acc1 (token.dropRight 1)
    else acc1) base
  let topicLower := jsToLower topic
  synonymMap.foldl (fun acc kv =>
    if decide (kv.1.toList <:+: topicLower.toList) then
      insertTerms (insertTerm acc kv.1) kv.2
    else acc) afterTokens

/-- `lexicalScore(text, terms)`: for each non-empty term contained in the
lowercased text, add 3 when the term has ≥ 6 characters, else 1. -/
def lexicalScore (text : String) (terms : List String) : ℚ :=
  let lower := jsToLower text
  terms.foldl (fun score term =>
    if term = "" then score
    else if decide (term.toList <:+: lower.toList) then
      score + (if 6 ≤ term.length then 3 else 1)
    else score) 0

/-- `normalizeMinMax(values)`: `[]` for `[]`; all zeros when every value
equals the minimum (`min === max`); otherwise `(x - min)/(max - min)`.
(The source also skips non-finite values when scanning for the min and
max and maps them to 0; over `ℚ` every value is finite, so those
branches are vacuous.) -/
def normalizeMinMax (values : List ℚ) : List ℚ :=
  match values with
  | [] => []
  | v :: vs =>
    let mn := vs.foldl min v
    let mx := vs.foldl max v
    if mn = mx then values.map (fun _ => 0)
    else values.map (fun x => (x - mn) / (mx - mn))

/-! ## Hybrid ranker (`scripts/lib/rag-retrieval.mjs`) -/

/-- A slide-file candidate as loaded from the artifacts: its name, its
summary text (`??""` applies when absent), and its pre-computed summary
embedding when present and an array. -/
structure SlideFile where
  fileName : String
  summaryText : Option String
  summaryEmbedding : Option (List ℚ)

/-- A chunk candidate. -/
structure ChunkRec where
  id : String
  sourceName : String
  sourcePath : String
  text : String

/-- The JS sort comparator `(a, b) => b.score - a.score || keyA.localeCompare(keyB)`
as the total preorder it sorts by: higher score first, ties by ascending
key.  JS `Array.prototype.sort` is stable, as is `List.mergeSort`. -/
def keyLE {α : Type} (score : α → ℚ) (key : α → String) (a b : α) : Bool :=
  (score b < score a) || (score a == score b && key a ≤ key b)

/-- `{...item, lexicalScore, semanticScore, score}` for each candidate
with its raw and normalized scores (`mk x lexRaw semRaw lexNorm semNorm`);
the lists run in parallel, mirroring `array.map((item, index) => ...)`
indexing into the score arrays. -/
def decorate {α β : Type} (mk : α → ℚ → ℚ → ℚ → ℚ → β) :
    List α → List ℚ → List ℚ → List ℚ → List ℚ → List β
  | x :: xs, a :: la, b :: lb, c :: lc, d :: ld =>
    mk x a b c d :: decorate mk xs la lb lc ld
  | _, _, _, _, _ => []

/-- A ranked slide-file candidate (`{...file, lexicalScore,
semanticScore, score}`). -/
structure RankedFile where
  file : SlideFile
  lexicalScore : ℚ
  semanticScore : ℚ
  score : ℚ

/-- The lexical raw score vector of `rankSlideFilesByHybrid`:
`lexicalScore(fileName + "\n" + (summaryText ?? ""), buildTopicTerms(topic))`. -/
def fileLexRaw (topic : String) (slideFiles : List SlideFile) : List ℚ :=
  let terms := buildTopicTerms topic
  slideFiles.map (fun f =>
    lexicalScore (f.fileName ++ "\n" ++ f.summaryText.getD "") terms)

/-- The semantic raw score of one slide file: the cosine similarity of
the query embedding and the stored summary embedding, or 0 when either
is absent or the similarity computation throws (the `try/catch` around
`cosineSimilarity`).  `cosSim` is the external `ai` package function,
which may throw (modelled as `Except.error`). -/
def semOfFile (cosSim : List ℚ → List ℚ → Except Unit ℚ)
    (queryEmbedding : Option (List ℚ)) (f : SlideFile) : ℚ :=
  match queryEmbedding, f.summaryEmbedding with
  | some q, some emb =>
    match cosSim q emb with
    | .ok v => v
    | .error _ => 0
  | _, _ => 0

/-- The semantic raw score vector of `rankSlideFilesByHybrid`. -/
def fileSemRaw (cosSim : List ℚ → List ℚ → Except Unit ℚ)
    (queryEmbedding : Option (List ℚ)) (slideFiles : List SlideFile) :
    List ℚ :=
  slideFiles.map (semOfFile cosSim queryEmbedding)

/-- The decorated (pre-sort) candidate list of `rankSlideFilesByHybrid`:
`slideFiles.map((file, index) => ({...file, lexicalScore, semanticScore,
score: lexicalWeight*lexicalNorm[index] + semanticWeight*semanticNorm[index]}))`. -/
def rankSlideFilesDecorated (cosSim : List ℚ → List ℚ → Except Unit ℚ)
    (topic : String) (slideFiles : List SlideFile)
    (queryEmbedding : Option (List ℚ))
    (lexicalWeight semanticWeight : ℚ) : List RankedFile :=
  let lexicalRaw := fileLexRaw topic slideFiles
  let semanticRaw := fileSemRaw cosSim queryEmbedding slideFiles
  let lexicalNorm := normalizeMinMax lexicalRaw
  let semanticNorm := normalizeMinMax semanticRaw
  decorate (fun f lr sr ln sn =>
      { file := f, lexicalScore := lr, semanticScore := sr,
        score := lexicalWeight * ln + semanticWeight * sn })
    slideFiles lexicalRaw semanticRaw lexicalNorm semanticNorm

/-- `rankSlideFilesByHybrid({topic, slideFiles, queryEmbedding,
lexicalWeight = 0.45, semanticWeight = 0.55})`: raw score vectors,
independent min-max normalization, weighted combination, then a stable
sort by combined score descending with ascending `fileName`
tie-break. -/
def rankSlideFilesByHybrid (cosSim : List ℚ → List ℚ → Except Unit ℚ)
    (topic : String) (slideFiles : List SlideFile)
    (queryEmbedding : Option (List ℚ))
    (lexicalWeight : ℚ := 45/100) (semanticWeight : ℚ := 55/100) :
    List RankedFile :=
  (rankSlideFilesDecorated cosSim topic slideFiles queryEmbedding
    lexicalWeight semanticWeight).mergeSort
    (keyLE (fun r => r.score) (fun r => r.file.fileName))

/-- A ranked chunk candidate. -/
structure RankedChunk where
  chunk : ChunkRec
  lexicalScore : ℚ
  semanticScore : ℚ
  score : ℚ

/-- The lexical raw score vector of `rankChunksHybrid`. -/
def chunkLexRaw (query : String) (chunks : List ChunkRec) : List ℚ :=
  let terms := buildTopicTerms query
  chunks.map (fun c => lexicalScore c.text terms)

/-- The semantic raw score of one chunk: 0 without a query embedding,
0 when `embeddingById` has no array for the chunk's id, the cosine
similarity otherwise, degraded to 0 when it throws. -/
def semOfChunk (cosSim : List ℚ → List ℚ → Except Unit ℚ)
    (embeddingById : String → Option (List ℚ))
    (queryEmbedding : Option (List ℚ)) (c : ChunkRec) : ℚ :=
  match queryEmbedding with
  | none => 0
  | some q =>
    match embeddingById c.id with
    | none => 0
    | some emb =>
      match cosSim q emb with
      | .ok v => v
      | .error _ => 0

/-- The semantic raw score vector of `rankChunksHybrid`. -/
def chunkSemRaw (cosSim : List ℚ → List ℚ → Except Unit ℚ)
    (embeddingById : String → Option (List ℚ))
    (queryEmbedding : Option (List ℚ)) (chunks : List ChunkRec) : List ℚ :=
  chunks.map (semOfChunk cosSim embeddingById queryEmbedding)

/-- The decorated (pre-sort) candidate list of `rankChunksHybrid`. -/
def rankChunksDecorated (cosSim : List ℚ → List ℚ → Except Unit ℚ)
    (query : String) (chunks : List ChunkRec)
    (embeddingById : String → Option (List ℚ))
    (queryEmbedding : Option (List ℚ))
    (lexicalWeight semanticWeight : ℚ) : List RankedChunk :=
  let lexicalRaw := chunkLexRaw query chunks
  let semanticRaw := chunkSemRaw cosSim embeddingById queryEmbedding chunks
  let lexicalNorm := normalizeMinMax lexicalRaw
  let semanticNorm := normalizeMinMax semanticRaw
  decorate (fun c lr sr ln sn =>
      { chunk := c, lexicalScore := lr, semanticScore := sr,
        score := lexicalWeight * ln + semanticWeight * sn })
    chunks lexicalRaw semanticRaw lexicalNorm semanticNorm

/-- `rankChunksHybrid({query, chunks, embeddingById, queryEmbedding,
lexicalWeight = 0.4, semanticWeight = 0.6})`: the same algorithm at
chunk granularity, ties broken by ascending chunk id. -/
def rankChunksHybrid (cosSim : List ℚ → List ℚ → Except Unit ℚ)
    (query : String) (chunks : List ChunkRec)
    (embeddingById : String → Option (List ℚ))
    (queryEmbedding : Option (List ℚ))
    (lexicalWeight : ℚ := 4/10) (semanticWeight : ℚ := 6/10) :
    List RankedChunk :=
  (rankChunksDecorated cosSim query chunks embeddingById queryEmbedding
    lexicalWeight semanticWeight).mergeSort
    (keyLE (fun r => r.score) (fun r => r.chunk.id))

/-! ## Source-balanced merger (`mergeSourceBalanced`) -/

/-- A ranked item entering the merge: only `score` and `id` are
consulted by the sort; `sourceGroup` is (re)assigned by the merge. -/
structure MergeItem where
  score : ℚ
  id : String
  sourceGroup : String
deriving DecidableEq

/-- `{...item, sourceGroup: g}`. -/
def setGroup (g : String) (i : MergeItem) : MergeItem :=
  { i with sourceGroup := g }

/-- `mergeSourceBalanced({rankedFelix, rankedMaxim, rankedSlides,
perSourceCap = 12, candidateLimit = 60})`: the function takes exactly
three source groups; each is truncated to `perSourceCap` and tagged
with its group, the capped subsets are concatenated, re-sorted globally
by score descending with ascending-id tie-break, and truncated to
`candidateLimit`. -/
def mergeSourceBalanced (rankedFelix rankedMaxim rankedSlides : List MergeItem)
    (perSourceCap : Nat := 12) (candidateLimit : Nat := 60) :
    List MergeItem :=
  let topFelix := (rankedFelix.take perSourceCap).map (setGroup "felix")
  let topMaxim := (rankedMaxim.take perSourceCap).map (setGroup "maxim")
  let topSlides := (rankedSlides.take perSourceCap).map (setGroup "slides")
  let merged := topFelix ++ topMaxim ++ topSlides
  (merged.mergeSort (keyLE (fun i => i.score) (fun i => i.id))).take
    candidateLimit

/-! ## Context assembler (`assembleSectionContext`) -/

/-- A selected candidate entering the assembler. -/
structure CtxChunk where
  id : String
  sourceName : String
  sourceGroup : String
  text : String
deriving DecidableEq

/-- `chunk.text.length + 220`: the estimated budget contribution of a
chunk (220 is the fixed per-chunk attribution-header overhead). -/
def estimatedSize (c : CtxChunk) : Nat := c.text.length + 220

/-- The selection loop of `assembleSectionContext`: iterate candidates
in order; a candidate whose estimated size would push the running total
past the budget is skipped (`continue`) and later candidates are still
considered; accepted candidates accumulate into `selected` and
`usedChars`. -/
def assembleGo (contextBudgetChars : Nat) :
    List CtxChunk → Nat → List CtxChunk × Nat
  | [], used => ([], used)
  | c :: rest, used =>
    if contextBudgetChars < used + estimatedSize c then
      assembleGo contextBudgetChars rest used
    else
      let r := assembleGo contextBudgetChars rest (used + estimatedSize c)
      (c :: r.1, r.2)

/-- The fixed group titles of the assembler. -/
def groupedTitles (g : String) : String :=
  if g = "felix" then "### Felix Scout (Indexed)"
  else if g = "maxim" then "### Maxim Scout (Indexed)"
  else "### BlockB Slides (Indexed)"

/-- One rendered chunk: `#### [id] Source: name` then the text. -/
def renderChunk (c : CtxChunk) : String :=
  "#### [" ++ c.id ++ "] Source: " ++ c.sourceName ++ "\n" ++ c.text

/-- The `{contextText, usedChars, selected}` result. -/
structure AssembleResult where
  contextText : String
  usedChars : Nat
  selected : List CtxChunk
deriving DecidableEq

/-- `assembleSectionContext({selectedChunks, contextBudgetChars =
28000})`: greedy skip-don't-break selection under the budget, then the
selected chunks grouped in the fixed `felix`, `maxim`, `slides` order,
each non-empty group under its title, joined with blank lines. -/
def assembleSectionContext (selectedChunks : List CtxChunk)
    (contextBudgetChars : Nat := 28000) : AssembleResult :=
  let sel := assembleGo contextBudgetChars selectedChunks 0
  let parts := ["felix", "maxim", "slides"].foldl (fun acc g =>
    let groupItems := sel.1.filter (fun item => item.sourceGroup == g)
    if groupItems.isEmpty then acc
    else acc ++ (groupedTitles g :: groupItems.map renderChunk)) []
  { contextText := String.intercalate "\n\n" parts
    usedChars := sel.2
    selected := sel.1 }


/-! ### Sort-order facts for the JS comparator -/

theorem keyLE_eq_true_iff {α : Type} (score : α → ℚ) (key : α → String)
    (a b : α) :
    keyLE score key a b = true ↔
      (score b < score a ∨ (score a = score b ∧ key a ≤ key b)) := by
  simp [keyLE]

theorem keyLE_trans {α : Type} (score : α → ℚ) (key : α → String) :
    ∀ a b c, keyLE score key a b → keyLE score key b c →
      keyLE score key a c := by
  intro a b c hab hbc
  rw [keyLE_eq_true_iff] at hab hbc ⊢
  rcases hab with h1 | ⟨h1, k1⟩
  · rcases hbc with h2 | ⟨h2, _⟩
    · exact Or.inl (h2.trans h1)
    · exact Or.inl (h2 ▸ h1)
  · rcases hbc with h2 | ⟨h2, k2⟩
    · exact Or.inl (by rw [h1]; exact h2)
    · exact Or.inr ⟨h1.trans h2, k1.trans k2⟩

theorem keyLE_total {α : Type} (score : α → ℚ) (key : α → String) :
    ∀ a b, keyLE score key a b || keyLE score key b a := by
  intro a b
  rcases lt_trichotomy (score a) (score b) with h | h | h
  · have : keyLE score key b a = true := by
      rw [keyLE_eq_true_iff]
      exact Or.inl h
    simp [this]
  · rcases le_total (key a) (key b) with hk | hk
    · have : keyLE score key a b = true := by
        rw [keyLE_eq_true_iff]
        exact Or.inr ⟨h, hk⟩
      simp [this]
    · have : keyLE score key b a = true := by
        rw [keyLE_eq_true_iff]
        exact Or.inr ⟨h.symm, hk⟩
      simp [this]
  · have : keyLE score key a b = true := by
      rw [keyLE_eq_true_iff]
      exact Or.inl h
    simp [this]

/-- The sorted output of a `keyLE` mergeSort, as a `Prop` relation:
score descending, key ascending on ties. -/
theorem pairwise_mergeSort_keyLE {α : Type} (score : α → ℚ)
    (key : α → String) (l : List α) :
    (l.mergeSort (keyLE score key)).Pairwise
      (fun a b => score b < score a ∨
        (score a = score b ∧ key a ≤ key b)) := by
  have h := @List.sorted_mergeSort _ (keyLE score key)
    (fun a b c => keyLE_trans score key a b c)
    (fun a b => keyLE_total score key a b) l
  exact h.imp (fun hab => (keyLE_eq_true_iff score key _ _).mp hab)

/-! ### Pointwise description of `decorate` -/

theorem decorate_getElem? {α β : Type} (mk : α → ℚ → ℚ → ℚ → ℚ → β) :
    ∀ (xs : List α) (la lb lc ld : List ℚ) (i : Nat) (x : α) (a b c d : ℚ),
      xs[i]? = some x → la[i]? = some a → lb[i]? = some b →
      lc[i]? = some c → ld[i]? = some d →
      (decorate mk xs la lb lc ld)[i]? = some (mk x a b c d) := by
  intro xs
  induction xs with
  | nil => intro la lb lc ld i x a b c d hx; simp at hx
  | cons x0 xs ih =>
    intro la lb lc ld i x a b c d hx ha hb hc hd
    cases la with
    | nil => simp at ha
    | cons a0 la =>
      cases lb with
      | nil => simp at hb
      | cons b0 lb =>
        cases lc with
        | nil => simp at hc
        | cons c0 lc =>
          cases ld with
          | nil => simp at hd
          | cons d0 ld =>
            cases i with
            | zero =>
              simp at hx ha hb hc hd
              subst hx ha hb hc hd
              simp [decorate]
            | succ n =>
              simp only [List.getElem?_cons_succ] at hx ha hb hc hd
              simp only [decorate, List.getElem?_cons_succ]
              exact ih la lb lc ld n x a b c d hx ha hb hc hd

/-! ### The greedy selection loop -/

theorem assembleGo_spec (budget : Nat) :
    ∀ (chunks : List CtxChunk) (used : Nat),
      (assembleGo budget chunks used).1.Sublist chunks ∧
      (assembleGo budget chunks used).2 =
        used + ((assembleGo budget chunks used).1.map estimatedSize).sum ∧
      (used ≤ budget → (assembleGo budget chunks used).2 ≤ budget) := by
  intro chunks
  induction chunks with
  | nil =>
    intro used
    exact ⟨List.Sublist.refl _, by simp [assembleGo], fun h => h⟩
  | cons c rest ih =>
    intro used
    by_cases hskip : budget < used + estimatedSize c
    · have heq : assembleGo budget (c :: rest) used =
          assembleGo budget rest used := by
        simp [assembleGo, hskip]
      rw [heq]
      obtain ⟨h1, h2, h3⟩ := ih used
      exact ⟨h1.cons c, h2, h3⟩
    · have heq : assembleGo budget (c :: rest) used =
          ((assembleGo budget rest (used + estimatedSize c)).1.cons c,
           (assembleGo budget rest (used + estimatedSize c)).2) := by
        simp [assembleGo, hskip]
      rw [heq]
      obtain ⟨h1, h2, h3⟩ := ih (used + estimatedSize c)
      refine ⟨h1.cons₂ c, ?_, fun _ => h3 (by omega)⟩
      simp only [List.map_cons, List.sum_cons]
      omega


/-! ### Claim theorems about the hybrid ranker, merger and assembler -/

/-- C9: the hybrid rankers never propagate an error: each candidate's
semantic raw score is the cosine similarity of the query embedding and
the stored embedding, degraded to 0 whenever the query embedding is
absent, the candidate's embedding is absent, or the similarity
computation throws; each decorated candidate's combined score is
`lexicalWeight * normalizedLexical + semanticWeight * normalizedSemantic`
at its index; and the ranked output is a permutation of the decorated
candidates sorted by combined score descending with ties broken by
ascending file name (files) or ascending chunk id (chunks). -/
theorem claim_C9_hybrid_ranking :
    (∀ cosSim (f : SlideFile), semOfFile cosSim none f = 0) ∧
    (∀ cosSim qe (f : SlideFile), f.summaryEmbedding = none →
      semOfFile cosSim qe f = 0) ∧
    (∀ cosSim q emb (f : SlideFile), f.summaryEmbedding = some emb →
      cosSim q emb = .error () → semOfFile cosSim (some q) f = 0) ∧
    (∀ cosSim q emb v (f : SlideFile), f.summaryEmbedding = some emb →
      cosSim q emb = .ok v → semOfFile cosSim (some q) f = v) ∧
    (∀ cosSim embById (c : ChunkRec),
      semOfChunk cosSim embById none c = 0) ∧
    (∀ cosSim embById qe (c : ChunkRec), embById c.id = none →
      semOfChunk cosSim embById qe c = 0) ∧
    (∀ cosSim embById q emb (c : ChunkRec), embById c.id = some emb →
      cosSim q emb = .error () →
      semOfChunk cosSim embById (some q) c = 0) ∧
    (∀ cosSim embById q emb v (c : ChunkRec), embById c.id = some emb →
      cosSim q emb = .ok v → semOfChunk cosSim embById (some q) c = v) ∧
    (∀ cosSim topic files qe lw sw (i : Nat) f lr sr ln sn,
      files[i]? = some f →
      (fileLexRaw topic files)[i]? = some lr →
      (fileSemRaw cosSim qe files)[i]? = some sr →
      (normalizeMinMax (fileLexRaw topic files))[i]? = some ln →
      (normalizeMinMax (fileSemRaw cosSim qe files))[i]? = some sn →
      (rankSlideFilesDecorated cosSim topic files qe lw sw)[i]? =
        some { file := f, lexicalScore := lr, semanticScore := sr,
               score := lw * ln + sw * sn }) ∧
    (∀ cosSim query chunks embById qe lw sw (i : Nat) c lr sr ln sn,
      chunks[i]? = some c →
      (chunkLexRaw query chunks)[i]? = some lr →
      (chunkSemRaw cosSim embById qe chunks)[i]? = some sr →
      (normalizeMinMax (chunkLexRaw query chunks))[i]? = some ln →
      (normalizeMinMax (chunkSemRaw cosSim embById qe chunks))[i]? =
        some sn →
      (rankChunksDecorated cosSim query chunks embById qe lw sw)[i]? =
        some { chunk := c, lexicalScore := lr, semanticScore := sr,
               score := lw * ln + sw * sn }) ∧
    (∀ cosSim topic files qe lw sw,
      List.Perm (rankSlideFilesByHybrid cosSim topic files qe lw sw)
        (rankSlideFilesDecorated cosSim topic files qe lw sw) ∧
      (rankSlideFilesByHybrid cosSim topic files qe lw sw).Pairwise
        (fun a b => b.score < a.score ∨
          (a.score = b.score ∧ a.file.fileName ≤ b.file.fileName))) ∧
    (∀ cosSim query chunks embById qe lw sw,
      List.Perm (rankChunksHybrid cosSim query chunks embById qe lw sw)
        (rankChunksDecorated cosSim query chunks embById qe lw sw) ∧
      (rankChunksHybrid cosSim query chunks embById qe lw sw).Pairwise
        (fun a b => b.score < a.score ∨
          (a.score = b.score ∧ a.chunk.id ≤ b.chunk.id))) := by
  refine ⟨fun cosSim f => ?_, fun cosSim qe f h => ?_,
    fun cosSim q emb f h hc => ?_, fun cosSim q emb v f h hc => ?_,
    fun cosSim embById c => rfl, fun cosSim embById qe c h => ?_,
    fun cosSim embById q emb c h hc => ?_,
    fun cosSim embById q emb v c h hc => ?_,
    fun cosSim topic files qe lw sw i f lr sr ln sn h1 h2 h3 h4 h5 =>
      decorate_getElem? _ files _ _ _ _ i f lr sr ln sn h1 h2 h3 h4 h5,
    fun cosSim query chunks embById qe lw sw i c lr sr ln sn
        h1 h2 h3 h4 h5 =>
      decorate_getElem? _ chunks _ _ _ _ i c lr sr ln sn h1 h2 h3 h4 h5,
    fun cosSim topic files qe lw sw =>
      ⟨List.mergeSort_perm _ _, pairwise_mergeSort_keyLE _ _ _⟩,
    fun cosSim query chunks embById qe lw sw =>
      ⟨List.mergeSort_perm _ _, pairwise_mergeSort_keyLE _ _ _⟩⟩
  · cases hf : f.summaryEmbedding <;> simp [semOfFile, hf]
  · simp [semOfFile, h]
  · simp [semOfFile, h, hc]
  · simp [semOfFile, h, hc]
  · cases qe <;> simp [semOfChunk, h]
  · simp [semOfChunk, h, hc]
  · simp [semOfChunk, h, hc]

/-- A witness for C9 at concrete inputs. -/
theorem claim_C9_hybrid_ranking_witness :
    ({ fileName := "x", summaryText := none,
       summaryEmbedding := none } : SlideFile).summaryEmbedding = none ∧
    semOfFile (fun _ _ => .ok 1) (some [1])
      { fileName := "x", summaryText := none, summaryEmbedding := none } =
      0 :=
  ⟨rfl, claim_C9_hybrid_ranking.2.1 (fun _ _ => .ok 1) (some [1])
    { fileName := "x", summaryText := none, summaryEmbedding := none } rfl⟩

/-- Two source groups of 50 items with score 100 each. -/
def c3Felix : List MergeItem :=
  (List.range 50).map (fun i =>
    { score := 100, id := "f" ++ toString i, sourceGroup := "" })

/-- A second large group, same scores. -/
def c3Maxim : List MergeItem :=
  (List.range 50).map (fun i =>
    { score := 100, id := "m" ++ toString i, sourceGroup := "" })

/-- A small group of 10 items, all outscored by the other groups. -/
def c3Slides : List MergeItem :=
  (List.range 10).map (fun i =>
    { score := 1, id := "s" ++ toString i, sourceGroup := "" })

/-- The capped, tagged concatenation `mergeSourceBalanced` builds from
these groups with `perSourceCap = 5`. -/
def c3Merged : List MergeItem :=
  (c3Felix.take 5).map (setGroup "felix") ++
    (c3Maxim.take 5).map (setGroup "maxim") ++
    (c3Slides.take 5).map (setGroup "slides")

/-- C3 counterexample: with groups of 50/50/10 items where the 10-item
group is outscored by all others, `mergeSourceBalanced` with
`perSourceCap = 5` (and a candidate limit large enough that the final
global truncation removes nothing) holds exactly 5 — not all 10 — of
the small group's items in its candidate pool: `perSourceCap` truncates
every group, the small one included, before merging.  (The claimed
4-group scenario cannot even be posed: the function takes exactly the
three groups `rankedFelix`, `rankedMaxim`, `rankedSlides`.) -/
theorem claim_C3_counterexample :
    c3Slides.length = 10 ∧
    (∀ x ∈ c3Felix ++ c3Maxim, ∀ y ∈ c3Slides, y.score < x.score) ∧
    (mergeSourceBalanced c3Felix c3Maxim c3Slides 5 200).countP
      (fun i => i.sourceGroup == "slides") = 5 := by
  refine ⟨by decide, ?_, ?_⟩
  · intro x hx y hy
    have hxs : x.score = 100 := by
      rcases List.mem_append.mp hx with h | h <;>
      · obtain ⟨i, _, rfl⟩ := List.mem_map.mp h
        rfl
    have hys : y.score = 1 := by
      obtain ⟨i, _, rfl⟩ := List.mem_map.mp hy
      rfl
    rw [hxs, hys]
    norm_num
  · have hdef : mergeSourceBalanced c3Felix c3Maxim c3Slides 5 200 =
        (c3Merged.mergeSort
          (keyLE (fun i => i.score) (fun i => i.id))).take 200 := rfl
    have hperm := List.mergeSort_perm c3Merged
      (keyLE (fun i => i.score) (fun i => i.id))
    have hlen : (c3Merged.mergeSort
        (keyLE (fun i => i.score) (fun i => i.id))).length = 15 := by
      rw [hperm.length_eq]
      decide
    rw [hdef, List.take_of_length_le (by omega), hperm.countP_eq]
    decide

/-- No item tagged with group `g ≠ "slides"` counts as a slides item. -/
theorem countP_slides_map_setGroup_ne (l : List MergeItem) (g : String)
    (hg : ¬ g = "slides") :
    (l.map (setGroup g)).countP (fun i => i.sourceGroup == "slides") = 0 := by
  rw [List.countP_map]
  apply List.countP_eq_zero.mpr
  intro a _
  simp [setGroup, Function.comp, hg]

/-- Every item tagged `"slides"` counts as a slides item. -/
theorem countP_slides_map_setGroup_eq (l : List MergeItem) :
    (l.map (setGroup "slides")).countP
      (fun i => i.sourceGroup == "slides") = l.length := by
  rw [List.countP_map]
  exact List.countP_eq_length.mpr
    (fun a _ => by simp [setGroup, Function.comp])

/-- C3 as amended: `mergeSourceBalanced` takes exactly three source
groups; each group's already-ranked items are truncated to
`perSourceCap` before merging, the capped subsets are concatenated,
re-sorted globally by combined score descending with ascending-id
tie-break, and truncated to `candidateLimit`.  Consequently the
candidate pool holds exactly `min perSourceCap |group|` items of each
group before the final truncation (never more than `perSourceCap`, even
for a group smaller than the others): with `perSourceCap = 5`, a 10-item
group contributes 5 items, not all 10. -/
theorem claim_C3_amended (rankedFelix rankedMaxim rankedSlides :
    List MergeItem) (perSourceCap candidateLimit : Nat) :
    (mergeSourceBalanced rankedFelix rankedMaxim rankedSlides
        perSourceCap candidateLimit).length =
      min candidateLimit
        (min perSourceCap rankedFelix.length +
          min perSourceCap rankedMaxim.length +
          min perSourceCap rankedSlides.length) ∧
    (mergeSourceBalanced rankedFelix rankedMaxim rankedSlides
        perSourceCap candidateLimit).Pairwise
      (fun a b => b.score < a.score ∨ (a.score = b.score ∧ a.id ≤ b.id)) ∧
    (mergeSourceBalanced rankedFelix rankedMaxim rankedSlides
        perSourceCap candidateLimit).countP
      (fun i => i.sourceGroup == "slides") ≤
      min perSourceCap rankedSlides.length ∧
    (min perSourceCap rankedFelix.length +
        min perSourceCap rankedMaxim.length +
        min perSourceCap rankedSlides.length ≤ candidateLimit →
      (mergeSourceBalanced rankedFelix rankedMaxim rankedSlides
          perSourceCap candidateLimit).countP
        (fun i => i.sourceGroup == "slides") =
        min perSourceCap rankedSlides.length) := by
  have hdef : mergeSourceBalanced rankedFelix rankedMaxim rankedSlides
      perSourceCap candidateLimit =
      (((rankedFelix.take perSourceCap).map (setGroup "felix") ++
        (rankedMaxim.take perSourceCap).map (setGroup "maxim") ++
        (rankedSlides.take perSourceCap).map (setGroup "slides")).mergeSort
        (keyLE (fun i => i.score) (fun i => i.id))).take candidateLimit :=
    rfl
  have hperm := List.mergeSort_perm
    ((rankedFelix.take perSourceCap).map (setGroup "felix") ++
      (rankedMaxim.take perSourceCap).map (setGroup "maxim") ++
      (rankedSlides.take perSourceCap).map (setGroup "slides"))
    (keyLE (fun i => i.score) (fun i => i.id))
  have hmlen : ((rankedFelix.take perSourceCap).map (setGroup "felix") ++
      (rankedMaxim.take perSourceCap).map (setGroup "maxim") ++
      (rankedSlides.take perSourceCap).map (setGroup "slides")).length =
      min perSourceCap rankedFelix.length +
        min perSourceCap rankedMaxim.length +
        min perSourceCap rankedSlides.length := by
    simp [List.length_append, List.length_take]
    omega
  have hcount : ((rankedFelix.take perSourceCap).map (setGroup "felix") ++
      (rankedMaxim.take perSourceCap).map (setGroup "maxim") ++
      (rankedSlides.take perSourceCap).map (setGroup "slides")).countP
      (fun i => i.sourceGroup == "slides") =
      min perSourceCap rankedSlides.length := by
    rw [List.countP_append, List.countP_append,
      countP_slides_map_setGroup_ne _ _ (by decide),
      countP_slides_map_setGroup_ne _ _ (by decide),
      countP_slides_map_setGroup_eq]
    simp [List.length_take]
  refine ⟨?_, ?_, ?_, ?_⟩
  · rw [hdef, List.length_take, hperm.length_eq, hmlen]
  · rw [hdef]
    exact List.Pairwise.sublist (List.take_sublist _ _)
      (pairwise_mergeSort_keyLE _ _ _)
  · rw [hdef]
    calc ((_ : List MergeItem).take candidateLimit).countP _ ≤ _ :=
          (List.take_sublist _ _).countP_le _
      _ = _ := hperm.countP_eq _
      _ = _ := hcount
  · intro hle
    rw [hdef, List.take_of_length_le (by rw [hperm.length_eq, hmlen]; omega),
      hperm.countP_eq, hcount]

/-- A witness for the amended C3 at a concrete input. -/
theorem claim_C3_amended_witness :
    min 5 (List.length ([] : List MergeItem)) +
      min 5 (List.length ([] : List MergeItem)) +
      min 5 (List.length ([] : List MergeItem)) ≤ 60 ∧
    (mergeSourceBalanced [] [] [] 5 60).countP
      (fun i => i.sourceGroup == "slides") =
      min 5 (List.length ([] : List MergeItem)) :=
  ⟨by decide, (claim_C3_amended [] [] [] 5 60).2.2.2 (by decide)⟩

/-- A large chunk: 5000 characters, estimated size 5220. -/
def c8Big : CtxChunk :=
  { id := "felix:1", sourceName := "felix.md", sourceGroup := "felix",
    text := String.mk (List.replicate 5000 'a') }

/-- A small chunk in the same group: estimated size 320. -/
def c8SmallF : CtxChunk :=
  { id := "felix:2", sourceName := "felix.md", sourceGroup := "felix",
    text := String.mk (List.replicate 100 'b') }

/-- A small chunk in another group: estimated size 320. -/
def c8SmallM : CtxChunk :=
  { id := "maxim:1", sourceName := "maxim.md", sourceGroup := "maxim",
    text := String.mk (List.replicate 100 'c') }

/-- C8: the assembler's selection loop skips a candidate whose estimated
size (`text.length + 220`) would push the running total past the budget
and continues to later candidates; the selection is a subsequence of the
input (relative order preserved, hence preserved within each group), and
`usedChars` is the sum of the selected chunks' estimated sizes (plus the
starting total) and never exceeds the budget.  In the `[5000, 100, 100]`
scenario with budget 700, the first chunk is excluded and both later
small chunks are selected, in order, with `usedChars = 320 + 320`. -/
theorem claim_C8_skip_and_continue :
    (∀ (budget : Nat) (chunks : List CtxChunk) (used : Nat),
      (assembleGo budget chunks used).1.Sublist chunks ∧
      (assembleGo budget chunks used).2 =
        used + ((assembleGo budget chunks used).1.map estimatedSize).sum ∧
      (used ≤ budget → (assembleGo budget chunks used).2 ≤ budget)) ∧
    (∀ chunks budget,
      (assembleSectionContext chunks budget).selected =
        (assembleGo budget chunks 0).1 ∧
      (assembleSectionContext chunks budget).usedChars =
        (assembleGo budget chunks 0).2) ∧
    (assembleSectionContext [c8Big, c8SmallF, c8SmallM] 700).selected =
      [c8SmallF, c8SmallM] ∧
    (assembleSectionContext [c8Big, c8SmallF, c8SmallM] 700).usedChars =
      640 ∧
    ((assembleSectionContext [c8Big, c8SmallF, c8SmallM] 700).selected.filter
      (fun i => i.sourceGroup == "felix")) = [c8SmallF] ∧
    ((assembleSectionContext [c8Big, c8SmallF, c8SmallM] 700).selected.filter
      (fun i => i.sourceGroup == "maxim")) = [c8SmallM] := by
  have hbig : estimatedSize c8Big = 5220 := by
    show (String.mk (List.replicate 5000 'a')).length + 220 = 5220
    rw [String.length_mk, List.length_replicate]
  have hsf : estimatedSize c8SmallF = 320 := by
    show (String.mk (List.replicate 100 'b')).length + 220 = 320
    rw [String.length_mk, List.length_replicate]
  have hsm : estimatedSize c8SmallM = 320 := by
    show (String.mk (List.replicate 100 'c')).length + 220 = 320
    rw [String.length_mk, List.length_replicate]
  have hassemble : assembleGo 700 [c8Big, c8SmallF, c8SmallM] 0 =
      ([c8SmallF, c8SmallM], 640) := by
    simp only [assembleGo, hbig, hsf, hsm]
    norm_num
  have hgen : ∀ (chunks : List CtxChunk) (budget : Nat),
      (assembleSectionContext chunks budget).selected =
        (assembleGo budget chunks 0).1 ∧
      (assembleSectionContext chunks budget).usedChars =
        (assembleGo budget chunks 0).2 :=
    fun chunks budget => ⟨rfl, rfl⟩
  have hsel := (hgen [c8Big, c8SmallF, c8SmallM] 700).1
  have hused := (hgen [c8Big, c8SmallF, c8SmallM] 700).2
  refine ⟨assembleGo_spec, hgen, ?_, ?_, ?_, ?_⟩
  · rw [hsel, hassemble]
  · rw [hused, hassemble]
  · rw [hsel, hassemble]
    simp [c8SmallF, c8SmallM]
  · rw [hsel, hassemble]
    simp [c8SmallF, c8SmallM]



/-- A witness for C8's budget-bound hypothesis at a concrete input. -/
theorem claim_C8_skip_and_continue_witness :
    0 ≤ 700 ∧ (assembleGo 700 [] 0).2 ≤ 700 :=
  ⟨by decide,
   (claim_C8_skip_and_continue.1 700 [] 0).2.2 (by decide)⟩

/-- A witness for the amended C1 at concrete inputs. -/
theorem claim_C1_amended_witness :
    docIssue none "pdf" "surgery" "model-a" (.error "io") =
      some "missing_manifest_entry" ∧
    prepareGate [] (fun _ => none) "surgery" "model-a"
      (fun _ => .error "io") true = .ok false := by
  refine ⟨claim_C1_amended.1 "pdf" "surgery" "model-a" (.error "io"), ?_⟩
  have h := (claim_C1_amended.2.2.2 [] (fun _ => none) "surgery" "model-a"
    (fun _ => .error "io") true).2 rfl
  simpa [listCacheReadinessIssues] using h

end Rag
